import Mathlib

/-!
Verification of the polar-fs-utils library (src/main.ts), a thin layer over
the Deno filesystem API.  The host filesystem and the Deno / std primitives
the library forwards to are modelled as executable functions over an explicit
filesystem state; the ten library operations are translated one-to-one from
the TypeScript source.
-/

set_option autoImplicit false

/-- A JavaScript `Error` value: its constructor name (used by
`instanceof` tests against `Deno.errors.*`) and its message. -/
structure JSError where
  name : String
  message : String
deriving DecidableEq, Repr

/-- A thrown JavaScript value: either an `Error` instance or an arbitrary
non-`Error` value (JS allows `throw` of anything). -/
inductive Thrown where
  | err (e : JSError)
  | nonError (value : String)
deriving DecidableEq, Repr

/-- Models `error instanceof Deno.errors.NotFound`. -/
def Thrown.isNotFound : Thrown → Bool
  | .err e => e.name == "NotFound"
  | .nonError _ => false

def notFoundError : Thrown := .err ⟨"NotFound", "No such file or directory (os error 2)"⟩

def permissionDeniedError : Thrown := .err ⟨"PermissionDenied", "Permission denied (os error 13)"⟩

def isADirectoryError : Thrown := .err ⟨"Error", "Is a directory (os error 21)"⟩

def directoryNotEmptyError : Thrown := .err ⟨"Error", "Directory not empty (os error 39)"⟩

def alreadyExistsError : Thrown := .err ⟨"AlreadyExists", "File exists (os error 17)"⟩

def ensureDirFileError : Thrown := .err ⟨"Error", "Ensure path exists, expected dir, got file"⟩

/-- A filesystem node: a regular file with (text) content, or a directory. -/
inductive Entry where
  | file (content : String)
  | dir
deriving DecidableEq, Repr

/-- The host filesystem: an association list from canonical paths (lists of
path segments) to nodes, in directory-stream order, together with the set of
paths on which the OS denies access (used to model failures other than
NotFound, e.g. permission errors). -/
structure FS where
  entries : List (List String × Entry)
  denied : List (List String)
deriving DecidableEq, Repr

/-- Splits the raw path string handed to a primitive into its canonical
segments: split on the separator and drop empty segments, as a POSIX kernel
does (so `"a//b"`, `"a/b"` and `"a/b/"` address the same node). -/
def splitPathAux : List Char → List Char → List String
  | [], cur => [String.mk cur.reverse]
  | c :: rest, cur =>
      if c = '/' then String.mk cur.reverse :: splitPathAux rest []
      else splitPathAux rest (c :: cur)

def splitPath (p : String) : List String :=
  (splitPathAux p.data []).filter (fun s => s ≠ "")

def FS.lookup (fs : FS) (segs : List String) : Option Entry :=
  (fs.entries.find? (fun kv => kv.1 == segs)).map (fun kv => kv.2)

def FS.deniedAt (fs : FS) (segs : List String) : Bool :=
  fs.denied.contains segs

/-- Creates or replaces the node at `segs`. -/
def FS.setEntry (fs : FS) (segs : List String) (e : Entry) : FS :=
  ⟨(segs, e) :: fs.entries.filter (fun kv => !(kv.1 == segs)), fs.denied⟩

/-- The parent directory of the target either is the root or must exist as a
directory for a file to be created at the target. -/
def parentOk (fs : FS) (segs : List String) : Bool :=
  segs.dropLast.isEmpty || (fs.lookup segs.dropLast == some Entry.dir)

/-- A directory entry as yielded by `Deno.readDir`. -/
structure DirEntry where
  name : String
  isFile : Bool
  isDirectory : Bool
deriving DecidableEq, Repr

/-- If `key` addresses an immediate child of the directory `segs`, its name. -/
def childName (segs key : List String) : Option String :=
  if segs.isPrefixOf key then
    match key.drop segs.length with
    | [n] => some n
    | _ => none
  else none

/-- The directory stream of `segs`: its immediate children, in the order the
filesystem stores them. -/
def FS.childrenOf (fs : FS) (segs : List String) : List DirEntry :=
  fs.entries.filterMap (fun kv =>
    match childName segs kv.1 with
    | some n =>
        match kv.2 with
        | .file _ => some ⟨n, true, false⟩
        | .dir => some ⟨n, false, true⟩
    | none => none)

/-- Model of `Deno.readDir`. -/
def Deno.readDir (fs : FS) (p : String) : Except Thrown (List DirEntry) :=
  let segs := splitPath p
  if fs.deniedAt segs then .error permissionDeniedError
  else
    match fs.lookup segs with
    | some .dir => .ok (fs.childrenOf segs)
    | some (.file _) => .error (.err ⟨"Error", "Not a directory (os error 20)"⟩)
    | none => .error notFoundError

/-- Removes the node at `segs` and every node below it. -/
def FS.removeSubtree (fs : FS) (segs : List String) : FS :=
  ⟨fs.entries.filter (fun kv => !(segs.isPrefixOf kv.1)), fs.denied⟩

/-- Removes the single node at `segs`. -/
def FS.removeOne (fs : FS) (segs : List String) : FS :=
  ⟨fs.entries.filter (fun kv => !(kv.1 == segs)), fs.denied⟩

/-- Model of `Deno.remove`: fails with NotFound when the path does not
exist; without `recursive` it refuses to delete a non-empty directory. -/
def Deno.remove (fs : FS) (p : String) (recursive : Bool) :
    Except Thrown Unit × FS :=
  let segs := splitPath p
  if fs.deniedAt segs then (.error permissionDeniedError, fs)
  else
    match fs.lookup segs with
    | none => (.error notFoundError, fs)
    | some (.file _) => (.ok (), fs.removeOne segs)
    | some .dir =>
        if recursive then (.ok (), fs.removeSubtree segs)
        else if (fs.childrenOf segs).isEmpty then (.ok (), fs.removeOne segs)
        else (.error directoryNotEmptyError, fs)

/-- Model of `Deno.readTextFile`. -/
def Deno.readTextFile (fs : FS) (p : String) : Except Thrown String :=
  let segs := splitPath p
  if fs.deniedAt segs then .error permissionDeniedError
  else
    match fs.lookup segs with
    | some (.file c) => .ok c
    | some .dir => .error isADirectoryError
    | none => .error notFoundError

/-- Model of `Deno.readFile`: the file's bytes (UTF-8, since contents are
modelled as text). -/
def Deno.readFile (fs : FS) (p : String) : Except Thrown (List UInt8) :=
  let segs := splitPath p
  if fs.deniedAt segs then .error permissionDeniedError
  else
    match fs.lookup segs with
    | some (.file c) => .ok c.toUTF8.toList
    | some .dir => .error isADirectoryError
    | none => .error notFoundError

/-- Model of `Deno.writeTextFile`: creates or truncates the file at `p`;
fails if the parent directory does not exist or the path is a directory. -/
def Deno.writeTextFile (fs : FS) (p : String) (c : String) :
    Except Thrown Unit × FS :=
  let segs := splitPath p
  if fs.deniedAt segs then (.error permissionDeniedError, fs)
  else if fs.lookup segs = some Entry.dir then (.error isADirectoryError, fs)
  else if parentOk fs segs then (.ok (), fs.setEntry segs (.file c))
  else (.error notFoundError, fs)

/-- Model of `Deno.copyFile`: copies a single file, overwriting the target. -/
def Deno.copyFile (fs : FS) (src dst : String) : Except Thrown Unit × FS :=
  let s := splitPath src
  let d := splitPath dst
  if fs.deniedAt s then (.error permissionDeniedError, fs)
  else if fs.deniedAt d then (.error permissionDeniedError, fs)
  else
    match fs.lookup s with
    | none => (.error notFoundError, fs)
    | some .dir => (.error isADirectoryError, fs)
    | some (.file c) =>
        if fs.lookup d = some Entry.dir then (.error isADirectoryError, fs)
        else if parentOk fs d then (.ok (), fs.setEntry d (.file c))
        else (.error notFoundError, fs)

/-- The non-empty prefixes of a segment list, shortest first: the chain of
directories `ensureDir` must make exist. -/
def segPrefixes : List String → List (List String)
  | [] => []
  | s :: rest => [s] :: (segPrefixes rest).map (fun q => s :: q)

def isFileEntry : Option Entry → Bool
  | some (.file _) => true
  | _ => false

/-- One step of `ensureDir`: create the directory `q` if nothing exists
there yet. -/
def ensureDirStep (fs : FS) (q : List String) : FS :=
  match fs.lookup q with
  | some _ => fs
  | none => fs.setEntry q .dir

/-- Model of std `ensureDir` (the behaviour of `mkdir -p`): creates the
directory and every missing intermediate directory; succeeds if the
directory already exists; fails if some prefix of the path is a regular
file. -/
def ensureDir (fs : FS) (p : String) : Except Thrown Unit × FS :=
  let segs := splitPath p
  if fs.deniedAt segs then (.error permissionDeniedError, fs)
  else if (segPrefixes segs).any (fun q => isFileEntry (fs.lookup q)) then
    (.error ensureDirFileError, fs)
  else (.ok (), (segPrefixes segs).foldl ensureDirStep fs)

/-- Model of std `copy`: recursively copies the tree at `src` to `dst`;
fails with NotFound if the source is missing and refuses to overwrite an
existing target (the primitive's default, no `overwrite`). -/
def stdCopy (fs : FS) (src dst : String) : Except Thrown Unit × FS :=
  let s := splitPath src
  let d := splitPath dst
  if fs.deniedAt s then (.error permissionDeniedError, fs)
  else if fs.deniedAt d then (.error permissionDeniedError, fs)
  else
    match fs.lookup s with
    | none => (.error notFoundError, fs)
    | some _ =>
        if fs.lookup d ≠ none then (.error alreadyExistsError, fs)
        else
          (.ok (), ⟨fs.entries ++ fs.entries.filterMap (fun kv =>
            if s.isPrefixOf kv.1 then some (d ++ kv.1.drop s.length, kv.2)
            else none), fs.denied⟩)

/-! ## The library's input records (src/main.ts interfaces) -/

structure DirectoryInput where
  projectRoot : String
  path : String
deriving DecidableEq, Repr

structure CopyInput where
  projectRoot : String
  source : String
  target : String
deriving DecidableEq, Repr

/-- `ZipInput extends CopyInput` with the archive name. -/
structure ZipInput where
  projectRoot : String
  source : String
  target : String
  name : String
deriving DecidableEq, Repr

/-- `FileInput extends DirectoryInput` with optional content. -/
structure FileInput where
  projectRoot : String
  path : String
  content : Option String
deriving DecidableEq, Repr

/-- `ImportedModule`: the exported bindings of a dynamically loaded module,
as a name-to-value mapping (values opaque). -/
abbrev ImportedModule := List (String × String)

/-! ## The library operations, translated from src/main.ts -/

/-- `formatWithTrailingSlash(x)`: `x + (x[x.length - 1] !== '/' ? '/' : '')`
(for the empty string, `x[-1]` is `undefined`, which differs from `'/'`). -/
def formatWithTrailingSlash (x : String) : String :=
  x ++ (if x.data.getLast? ≠ some '/' then "/" else "")

/-- `getDirectories`: iterate `Deno.readDir(projectRoot + path)`, pushing the
names of the entries with `entry.isDirectory`. -/
def getDirectories (input : DirectoryInput) (fs : FS) :
    Except Thrown (List String) :=
  match Deno.readDir fs (input.projectRoot ++ input.path) with
  | .error e => .error e
  | .ok entries =>
      .ok (entries.foldl
        (fun dirs entry => if entry.isDirectory then dirs ++ [entry.name] else dirs)
        [])

/-- The catch block of `makeDir`: an `Error` is rewrapped as
`new Error(e.message)`, anything else as `new Error('Unknown Error')`. -/
def makeDirCatch : Thrown → Thrown
  | .err e => .err ⟨"Error", e.message⟩
  | .nonError _ => .err ⟨"Error", "Unknown Error"⟩

/-- `makeDir`: `ensureDir(projectRoot + path)` inside try/catch. -/
def makeDir (input : DirectoryInput) (fs : FS) : Except Thrown Unit × FS :=
  match ensureDir fs (input.projectRoot ++ input.path) with
  | (.ok u, fs') => (.ok u, fs')
  | (.error e, fs') => (.error (makeDirCatch e), fs')

/-- `removeDir`: `Deno.remove(projectRoot + path, { recursive: true })`,
rethrowing only errors that are not `Deno.errors.NotFound`. -/
def removeDir (input : DirectoryInput) (fs : FS) : Except Thrown Unit × FS :=
  match Deno.remove fs (input.projectRoot ++ input.path) true with
  | (.ok u, fs') => (.ok u, fs')
  | (.error e, fs') =>
      if e.isNotFound then (.ok (), fs') else (.error e, fs')

/-- `copyDir`: std `copy(projectRoot + source, projectRoot + target)`. -/
def copyDir (input : CopyInput) (fs : FS) : Except Thrown Unit × FS :=
  stdCopy fs (input.projectRoot ++ input.source) (input.projectRoot ++ input.target)

/-- The spawn-and-wait interface of `Deno.Command`. -/
structure CommandSpec where
  cmd : String
  args : List String
  cwd : String
deriving DecidableEq, Repr

/-- The awaited output of the subprocess; `stdout` and `stderr` carry the
UTF-8 decoded stream contents. -/
structure CommandResult where
  success : Bool
  stdout : String
  stderr : String
deriving DecidableEq, Repr

/-- The archive path of `zipFolder`:
`resolve(projectRoot + formatWithTrailingSlash(target), name + ".zip")`.
The std `resolve` primitive is an external collaborator, passed in as a
function. -/
def zipArchivePath (resolvePath : String → String → String) (input : ZipInput) :
    String :=
  resolvePath (input.projectRoot ++ formatWithTrailingSlash input.target)
    (input.name ++ ".zip")

/-- `zipFolder`: ensure the target directory exists, run
`zip -r <archive> .` with cwd the source folder, throw on a non-zero exit
with the decoded stderr in the message, log the decoded stdout on success.
The subprocess runner and `resolve` are external collaborators, passed in as
functions; the third component of the result is the `console.log` output. -/
def zipFolder (runCmd : CommandSpec → CommandResult)
    (resolvePath : String → String → String) (input : ZipInput) (fs : FS) :
    Except Thrown Unit × FS × List String :=
  let source := input.projectRoot ++ input.source
  let target := input.projectRoot ++ formatWithTrailingSlash input.target
  match ensureDir fs target with
  | (.error e, fs₁) => (.error e, fs₁, [])
  | (.ok _, fs₁) =>
      let zipFilePath := zipArchivePath resolvePath input
      let res := runCmd ⟨"zip", ["-r", zipFilePath, "."], source⟩
      if !res.success then
        (.error (.err ⟨"Error", "Failed to create zip: " ++ res.stderr⟩), fs₁, [])
      else (.ok (), fs₁, [res.stdout])

/-- `getFile`: `Deno.readFile(projectRoot + path)`. -/
def getFile (input : DirectoryInput) (fs : FS) : Except Thrown (List UInt8) :=
  Deno.readFile fs (input.projectRoot ++ input.path)

/-- `getJsFile`: `import(projectRoot + path)`; the host module loader is an
external collaborator, passed in as a function. -/
def getJsFile (importFn : String → Except Thrown ImportedModule)
    (input : DirectoryInput) : Except Thrown ImportedModule :=
  importFn (input.projectRoot ++ input.path)

def contentRequiredError : Thrown := .err ⟨"Error", "Content is required for writing file"⟩

/-- `writeFile`: `if (!input.content) throw new Error('Content is required
for writing file')` — a truthiness test, so both an absent and an empty
string are rejected before `Deno.writeTextFile` is reached. -/
def writeFile (input : FileInput) (fs : FS) : Except Thrown Unit × FS :=
  match input.content with
  | none => (.error contentRequiredError, fs)
  | some s =>
      if s = "" then (.error contentRequiredError, fs)
      else Deno.writeTextFile fs (input.projectRoot ++ input.path) s

/-- `removeFile`: `Deno.remove(projectRoot + path)` with no options and no
catch — failures, including NotFound, propagate. -/
def removeFile (input : DirectoryInput) (fs : FS) : Except Thrown Unit × FS :=
  Deno.remove fs (input.projectRoot ++ input.path) false

/-- `copyFile`: `Deno.copyFile(projectRoot + source, projectRoot + target)`. -/
def copyFile (input : CopyInput) (fs : FS) : Except Thrown Unit × FS :=
  Deno.copyFile fs (input.projectRoot ++ input.source)
    (input.projectRoot ++ input.target)

/-- `getTextContent`: `Deno.readTextFile(projectRoot + path)`. -/
def getTextContent (input : DirectoryInput) (fs : FS) : Except Thrown String :=
  Deno.readTextFile fs (input.projectRoot ++ input.path)

/-- Written from the spec's words, for comparison with the code: a string
ends in exactly one trailing separator when its last character is `'/'` and
the character before that is not. -/
def endsInExactlyOneSlash (s : String) : Bool :=
  s.data.getLast? == some '/' && !(s.data.dropLast.getLast? == some '/')

/-! ## Helper lemmas -/

theorem find?_filter_comm {α : Type} (p f : α → Bool) (l : List α)
    (h : ∀ a, p a = true → f a = true) :
    (l.filter f).find? p = l.find? p := by
  induction l with
  | nil => rfl
  | cons a t ih =>
      by_cases hf : f a = true
      · by_cases hp : p a = true
        · simp [List.filter_cons, hf, List.find?_cons, hp]
        · simp only [List.filter_cons, hf, if_pos]
          simp [List.find?_cons, hp, ih]
      · have hp : p a = false := by
          cases hpa : p a
          · rfl
          · exact absurd (h a hpa) hf
        simp [List.filter_cons, hf, List.find?_cons, hp, ih]

theorem FS.lookup_setEntry_self (fs : FS) (q : List String) (e : Entry) :
    (fs.setEntry q e).lookup q = some e := by
  simp [FS.setEntry, FS.lookup, List.find?_cons]

theorem FS.lookup_setEntry_ne (fs : FS) (a b : List String) (e : Entry)
    (h : a ≠ b) : (fs.setEntry b e).lookup a = fs.lookup a := by
  unfold FS.setEntry FS.lookup
  have hhead : ((b, e).1 == a) = false := by
    simp only [beq_eq_false_iff_ne, ne_eq]
    exact fun hba => h hba.symm
  simp only [List.find?_cons, hhead]
  rw [find?_filter_comm]
  intro kv hkv
  simp only [beq_iff_eq] at hkv
  simp [hkv, h]

theorem FS.denied_setEntry (fs : FS) (q : List String) (e : Entry) :
    (fs.setEntry q e).denied = fs.denied := rfl

theorem FS.deniedAt_congr (fs fs' : FS) (q : List String)
    (h : fs'.denied = fs.denied) : fs'.deniedAt q = fs.deniedAt q := by
  unfold FS.deniedAt
  rw [h]

theorem ensureDirStep_denied (fs : FS) (q : List String) :
    (ensureDirStep fs q).denied = fs.denied := by
  unfold ensureDirStep
  cases h : fs.lookup q <;> rfl

theorem foldl_ensureDirStep_denied (L : List (List String)) (fs : FS) :
    (L.foldl ensureDirStep fs).denied = fs.denied := by
  induction L generalizing fs with
  | nil => rfl
  | cons a t ih => rw [List.foldl_cons, ih, ensureDirStep_denied]

theorem ensureDirStep_preserves_dir (fs : FS) (q q' : List String)
    (h : fs.lookup q = some .dir) :
    (ensureDirStep fs q').lookup q = some Entry.dir := by
  unfold ensureDirStep
  cases h' : fs.lookup q' with
  | some e => exact h
  | none =>
      have hne : q ≠ q' := by
        rintro rfl
        rw [h] at h'
        cases h'
      rw [FS.lookup_setEntry_ne _ _ _ _ hne]
      exact h

theorem foldl_preserves_dir (L : List (List String)) (fs : FS) (q : List String)
    (h : fs.lookup q = some .dir) :
    (L.foldl ensureDirStep fs).lookup q = some Entry.dir := by
  induction L generalizing fs with
  | nil => exact h
  | cons a t ih => exact ih _ (ensureDirStep_preserves_dir _ _ _ h)

theorem ensureDirStep_not_file (fs : FS) (q q' : List String)
    (h : isFileEntry (fs.lookup q) = false) :
    isFileEntry ((ensureDirStep fs q').lookup q) = false := by
  unfold ensureDirStep
  cases h' : fs.lookup q' with
  | some e => exact h
  | none =>
      by_cases hq : q = q'
      · subst hq
        rw [FS.lookup_setEntry_self]
        rfl
      · rw [FS.lookup_setEntry_ne _ _ _ _ hq]
        exact h

theorem foldl_establishes_dirs (L : List (List String)) (fs : FS)
    (h : ∀ q ∈ L, isFileEntry (fs.lookup q) = false) :
    ∀ q ∈ L, (L.foldl ensureDirStep fs).lookup q = some Entry.dir := by
  induction L generalizing fs with
  | nil => intro q hq; cases hq
  | cons a t ih =>
      intro q hq
      have step_a : (ensureDirStep fs a).lookup a = some Entry.dir := by
        unfold ensureDirStep
        cases h' : fs.lookup a with
        | none => exact FS.lookup_setEntry_self fs a .dir
        | some e =>
            cases e with
            | dir => exact h'
            | file c =>
                have hfa := h a (by simp)
                rw [h'] at hfa
                simp [isFileEntry] at hfa
      rw [List.foldl_cons]
      rw [List.mem_cons] at hq
      rcases hq with rfl | hq
      · exact foldl_preserves_dir _ _ _ step_a
      · exact ih _ (fun q' hq' => ensureDirStep_not_file _ _ _
          (h q' (List.mem_cons_of_mem _ hq'))) q hq

theorem foldl_noop_of_dirs (L : List (List String)) (fs : FS)
    (h : ∀ q ∈ L, fs.lookup q = some Entry.dir) :
    L.foldl ensureDirStep fs = fs := by
  induction L generalizing fs with
  | nil => rfl
  | cons a t ih =>
      have hstep : ensureDirStep fs a = fs := by
        unfold ensureDirStep
        rw [h a (by simp)]
      rw [List.foldl_cons, hstep]
      exact ih _ (fun q hq => h q (List.mem_cons_of_mem _ hq))

theorem ensureDir_eq_ok (fs : FS) (p : String)
    (hd : fs.deniedAt (splitPath p) = false)
    (hf : ∀ q ∈ segPrefixes (splitPath p), isFileEntry (fs.lookup q) = false) :
    ensureDir fs p = (.ok (), (segPrefixes (splitPath p)).foldl ensureDirStep fs) := by
  unfold ensureDir
  have hany : ((segPrefixes (splitPath p)).any (fun q => isFileEntry (fs.lookup q))) = false := by
    simp only [List.any_eq_false]
    intro q hq
    simp [hf q hq]
  simp [hd, hany]

theorem ensureDir_ok_inv (fs fs' : FS) (p : String)
    (h : ensureDir fs p = (.ok (), fs')) :
    fs.deniedAt (splitPath p) = false ∧
    (∀ q ∈ segPrefixes (splitPath p), isFileEntry (fs.lookup q) = false) ∧
    fs' = (segPrefixes (splitPath p)).foldl ensureDirStep fs := by
  unfold ensureDir at h
  by_cases hd : fs.deniedAt (splitPath p) = true
  · simp [hd] at h
  · by_cases hany : (segPrefixes (splitPath p)).any (fun q => isFileEntry (fs.lookup q)) = true
    · simp [hd, hany] at h
    · refine ⟨by simpa using hd, ?_, ?_⟩
      · intro q hq
        rw [Bool.not_eq_true, List.any_eq_false] at hany
        simpa using hany q hq
      · simp [hd, hany] at h
        exact h.symm

theorem ensureDir_ok_dirs (fs fs' : FS) (p : String)
    (h : ensureDir fs p = (.ok (), fs')) :
    ∀ q ∈ segPrefixes (splitPath p), fs'.lookup q = some Entry.dir := by
  obtain ⟨_, hf, rfl⟩ := ensureDir_ok_inv fs _ p h
  exact foldl_establishes_dirs _ _ hf

theorem ensureDir_ok_denied (fs fs' : FS) (p : String)
    (h : ensureDir fs p = (.ok (), fs')) : fs'.denied = fs.denied := by
  obtain ⟨_, _, rfl⟩ := ensureDir_ok_inv fs _ p h
  exact foldl_ensureDirStep_denied _ _

theorem ensureDir_idem (fs fs' : FS) (p : String)
    (h : ensureDir fs p = (.ok (), fs')) :
    ensureDir fs' p = (.ok (), fs') := by
  obtain ⟨hd, hf, hfs'⟩ := ensureDir_ok_inv fs fs' p h
  have hd' : fs'.deniedAt (splitPath p) = false := by
    rw [FS.deniedAt_congr fs fs' _ (ensureDir_ok_denied fs fs' p h)]
    exact hd
  have hdirs := ensureDir_ok_dirs fs fs' p h
  have hf' : ∀ q ∈ segPrefixes (splitPath p), isFileEntry (fs'.lookup q) = false := by
    intro q hq
    rw [hdirs q hq]
    rfl
  rw [ensureDir_eq_ok fs' p hd' hf', foldl_noop_of_dirs _ _ hdirs]

theorem writeTextFile_ok_inv (fs fs' : FS) (p c : String)
    (h : Deno.writeTextFile fs p c = (.ok (), fs')) :
    fs.deniedAt (splitPath p) = false ∧
    fs' = fs.setEntry (splitPath p) (.file c) := by
  unfold Deno.writeTextFile at h
  by_cases hd : fs.deniedAt (splitPath p) = true
  · simp [hd] at h
  · by_cases hdir : fs.lookup (splitPath p) = some Entry.dir
    · simp [hd, hdir] at h
    · by_cases hp : parentOk fs (splitPath p) = true
      · simp only [hd, hdir, hp, if_false, if_true, Bool.false_eq_true,
          if_neg, Prod.mk.injEq] at h
        exact ⟨by simpa using hd, h.2.symm⟩
      · simp [hd, hdir, hp] at h

theorem fmtSlash_of_not_slash (x : String) (h : x.data.getLast? ≠ some '/') :
    formatWithTrailingSlash x = x ++ "/" := by
  unfold formatWithTrailingSlash
  rw [if_pos h]

theorem fmtSlash_of_slash (x : String) (h : x.data.getLast? = some '/') :
    formatWithTrailingSlash x = x := by
  unfold formatWithTrailingSlash
  rw [if_neg (by simp [h]), String.append_empty]

theorem fmtSlash_getLast (x : String) :
    (formatWithTrailingSlash x).data.getLast? = some '/' := by
  by_cases h : x.data.getLast? = some '/'
  · rw [fmtSlash_of_slash x h]
    exact h
  · rw [fmtSlash_of_not_slash x h, String.data_append]
    have : "/".data = ['/'] := rfl
    rw [this, List.getLast?_append_cons]
    rfl

theorem fmtSlash_idem (x : String) :
    formatWithTrailingSlash (formatWithTrailingSlash x) = formatWithTrailingSlash x :=
  fmtSlash_of_slash _ (fmtSlash_getLast x)

theorem foldl_push_dirs (l : List DirEntry) (acc : List String) :
    l.foldl
      (fun dirs entry => if entry.isDirectory then dirs ++ [entry.name] else dirs)
      acc
      = acc ++ (l.filter (fun d => d.isDirectory)).map (fun d => d.name) := by
  induction l generalizing acc with
  | nil => simp
  | cons a t ih =>
      by_cases hd : a.isDirectory = true <;>
        simp [List.filter_cons, hd, ih]

/-! ## Claims -/

/-- Claim C1: for every path that does not exist under the project root (and
on which the OS does not deny access), `removeDir` completes without error —
the underlying NotFound failure is suppressed and the call treated as
success — while any failure of the underlying remove other than NotFound
propagates to the caller. -/
theorem removeDir_suppresses_notFound (input : DirectoryInput) (fs : FS) :
    (fs.deniedAt (splitPath (input.projectRoot ++ input.path)) = false →
     fs.lookup (splitPath (input.projectRoot ++ input.path)) = none →
     removeDir input fs = (.ok (), fs))
  ∧ (∀ e fs₁,
      Deno.remove fs (input.projectRoot ++ input.path) true = (.error e, fs₁) →
      e.isNotFound = false →
      removeDir input fs = (.error e, fs₁)) := by
  constructor
  · intro hd hl
    unfold removeDir Deno.remove
    simp [hd, hl, Thrown.isNotFound, notFoundError]
  · intro e fs₁ h he
    unfold removeDir
    rw [h]
    simp [he]

theorem removeDir_suppresses_notFound_witness :
    removeDir ⟨"/r", "/x"⟩ ⟨[], []⟩ = (.ok (), (⟨[], []⟩ : FS)) ∧
    removeDir ⟨"/r", "/x"⟩ ⟨[], [["r", "x"]]⟩ =
      (.error permissionDeniedError, (⟨[], [["r", "x"]]⟩ : FS)) :=
  ⟨(removeDir_suppresses_notFound ⟨"/r", "/x"⟩ ⟨[], []⟩).1 rfl rfl,
   (removeDir_suppresses_notFound ⟨"/r", "/x"⟩ ⟨[], [["r", "x"]]⟩).2
     permissionDeniedError ⟨[], [["r", "x"]]⟩ rfl rfl⟩

/-- Claim C2: for every path that does not exist under the project root (and
is not access-denied), `removeFile` fails with the NotFound error — the
not-found failure is not swallowed — whereas `removeDir` on the same missing
path succeeds (asymmetric idempotence policy). -/
theorem removeFile_notFound_propagates (input : DirectoryInput) (fs : FS)
    (hd : fs.deniedAt (splitPath (input.projectRoot ++ input.path)) = false)
    (hl : fs.lookup (splitPath (input.projectRoot ++ input.path)) = none) :
    removeFile input fs = (.error notFoundError, fs) ∧
    removeDir input fs = (.ok (), fs) := by
  constructor
  · unfold removeFile Deno.remove
    simp [hd, hl]
  · unfold removeDir Deno.remove
    simp [hd, hl, Thrown.isNotFound, notFoundError]

theorem removeFile_notFound_propagates_witness :
    removeFile ⟨"/r", "/x"⟩ ⟨[], []⟩ = (.error notFoundError, (⟨[], []⟩ : FS)) ∧
    removeDir ⟨"/r", "/x"⟩ ⟨[], []⟩ = (.ok (), (⟨[], []⟩ : FS)) :=
  removeFile_notFound_propagates ⟨"/r", "/x"⟩ ⟨[], []⟩ rfl rfl

/-- Claim C3: `writeFile` fails with the content-required error exactly when
the content is falsy (absent or the empty string), and this failure happens
before any filesystem I/O, leaving the filesystem unchanged; with a
non-empty content string the call forwards to `Deno.writeTextFile` at
`projectRoot ++ path`, and on success the file at that path holds exactly
the given content. -/
theorem writeFile_content_required (input : FileInput) (fs : FS) :
    ((input.content = none ∨ input.content = some "") →
       writeFile input fs = (.error contentRequiredError, fs))
  ∧ (∀ s, input.content = some s → s ≠ "" →
       writeFile input fs =
         Deno.writeTextFile fs (input.projectRoot ++ input.path) s)
  ∧ (∀ s fs', input.content = some s →
       writeFile input fs = (.ok (), fs') →
       fs'.lookup (splitPath (input.projectRoot ++ input.path)) =
         some (.file s)) := by
  refine ⟨?_, ?_, ?_⟩
  · rintro (h | h) <;> simp [writeFile, h]
  · intro s hc hs
    simp [writeFile, hc, hs]
  · intro s fs' hc h
    simp only [writeFile, hc] at h
    by_cases hs : s = ""
    · rw [if_pos hs] at h
      simp at h
    · rw [if_neg hs] at h
      obtain ⟨hd, rfl⟩ := writeTextFile_ok_inv fs fs' _ s h
      exact FS.lookup_setEntry_self ..

theorem writeFile_content_required_witness :
    writeFile ⟨"/r", "/a.txt", none⟩ ⟨[], []⟩ =
      (.error contentRequiredError, (⟨[], []⟩ : FS)) ∧
    writeFile ⟨"/r", "/a.txt", some ""⟩ ⟨[], []⟩ =
      (.error contentRequiredError, (⟨[], []⟩ : FS)) ∧
    writeFile ⟨"/r", "/a.txt", some "hi"⟩ ⟨[], []⟩ =
      Deno.writeTextFile ⟨[], []⟩ ("/r" ++ "/a.txt") "hi" ∧
    (FS.mk [(["r", "a.txt"], .file "hi"), (["r"], .dir)] []).lookup
      (splitPath ("/r" ++ "/a.txt")) = some (.file "hi") :=
  ⟨(writeFile_content_required ⟨"/r", "/a.txt", none⟩ ⟨[], []⟩).1 (Or.inl rfl),
   (writeFile_content_required ⟨"/r", "/a.txt", some ""⟩ ⟨[], []⟩).1 (Or.inr rfl),
   (writeFile_content_required ⟨"/r", "/a.txt", some "hi"⟩ ⟨[], []⟩).2.1 "hi" rfl
     (by decide),
   (writeFile_content_required ⟨"/r", "/a.txt", some "hi"⟩
       ⟨[(["r"], .dir)], []⟩).2.2 "hi"
     ⟨[(["r", "a.txt"], .file "hi"), (["r"], .dir)], []⟩ rfl rfl⟩

/-- Claim C4: write/read round trip — for every non-empty string `s`, if
`writeFile` with content `s` at a path succeeds, then `getTextContent` at
the same path in the resulting filesystem returns exactly `s`. -/
theorem writeFile_getTextContent_roundtrip (root p s : String) (fs fs' : FS)
    (h : writeFile ⟨root, p, some s⟩ fs = (.ok (), fs')) :
    getTextContent ⟨root, p⟩ fs' = .ok s := by
  by_cases hs : s = ""
  · subst hs
    simp [writeFile] at h
  · simp only [writeFile, if_neg hs] at h
    obtain ⟨hd, rfl⟩ := writeTextFile_ok_inv fs fs' _ s h
    unfold getTextContent Deno.readTextFile
    have hd' : (fs.setEntry (splitPath (root ++ p)) (.file s)).deniedAt
        (splitPath (root ++ p)) = false := by
      rw [FS.deniedAt_congr fs _ _ (FS.denied_setEntry ..)]
      exact hd
    simp [hd', FS.lookup_setEntry_self]

theorem writeFile_getTextContent_roundtrip_witness :
    getTextContent ⟨"/r", "/a.txt"⟩
      ⟨[(["r", "a.txt"], .file "hi"), (["r"], .dir)], []⟩ = .ok "hi" :=
  writeFile_getTextContent_roundtrip "/r" "/a.txt" "hi" ⟨[(["r"], .dir)], []⟩
    ⟨[(["r", "a.txt"], .file "hi"), (["r"], .dir)], []⟩ rfl

/-- Claim C5: `zipFolder` first ensures the target directory
(`projectRoot ++ formatWithTrailingSlash target`) exists — a failure of that
step propagates — then invokes the external process `zip -r <archive> .`
with the working directory set to the source folder; if the process exits
non-zero, the call fails with an error whose message contains the decoded
stderr text, and on success the decoded stdout is logged and nothing is
returned to the caller. -/
theorem zipFolder_contract (runCmd : CommandSpec → CommandResult)
    (resolvePath : String → String → String) (input : ZipInput) (fs : FS) :
    (∀ e fs₁,
      ensureDir fs (input.projectRoot ++ formatWithTrailingSlash input.target) =
        (.error e, fs₁) →
      zipFolder runCmd resolvePath input fs = (.error e, fs₁, []))
  ∧ (∀ fs₁,
      ensureDir fs (input.projectRoot ++ formatWithTrailingSlash input.target) =
        (.ok (), fs₁) →
      (runCmd ⟨"zip", ["-r", zipArchivePath resolvePath input, "."],
          input.projectRoot ++ input.source⟩).success = false →
      zipFolder runCmd resolvePath input fs =
        (.error (.err ⟨"Error", "Failed to create zip: " ++
            (runCmd ⟨"zip", ["-r", zipArchivePath resolvePath input, "."],
              input.projectRoot ++ input.source⟩).stderr⟩), fs₁, []))
  ∧ (∀ fs₁,
      ensureDir fs (input.projectRoot ++ formatWithTrailingSlash input.target) =
        (.ok (), fs₁) →
      (runCmd ⟨"zip", ["-r", zipArchivePath resolvePath input, "."],
          input.projectRoot ++ input.source⟩).success = true →
      zipFolder runCmd resolvePath input fs =
        (.ok (), fs₁,
          [(runCmd ⟨"zip", ["-r", zipArchivePath resolvePath input, "."],
              input.projectRoot ++ input.source⟩).stdout])) := by
  refine ⟨?_, ?_, ?_⟩
  · intro e fs₁ h
    simp only [zipFolder]
    rw [h]
  · intro fs₁ h hfail
    simp only [zipFolder]
    rw [h]
    simp [hfail]
  · intro fs₁ h hsucc
    simp only [zipFolder]
    rw [h]
    simp [hsucc]

theorem zipFolder_contract_witness :
    zipFolder (fun _ => ⟨false, "", "boom"⟩) (fun a b => a ++ b)
      ⟨"/r", "/src", "/t", "arch"⟩ ⟨[], []⟩ =
      (.error (.err ⟨"Error", "Failed to create zip: " ++ "boom"⟩),
        (⟨[(["r", "t"], .dir), (["r"], .dir)], []⟩ : FS), []) ∧
    zipFolder (fun _ => ⟨true, "adding: x", ""⟩) (fun a b => a ++ b)
      ⟨"/r", "/src", "/t", "arch"⟩ ⟨[], []⟩ =
      (.ok (), (⟨[(["r", "t"], .dir), (["r"], .dir)], []⟩ : FS), ["adding: x"]) :=
  ⟨(zipFolder_contract (fun _ => ⟨false, "", "boom"⟩) (fun a b => a ++ b)
      ⟨"/r", "/src", "/t", "arch"⟩ ⟨[], []⟩).2.1 _ rfl rfl,
   (zipFolder_contract (fun _ => ⟨true, "adding: x", ""⟩) (fun a b => a ++ b)
      ⟨"/r", "/src", "/t", "arch"⟩ ⟨[], []⟩).2.2 _ rfl rfl⟩

/-- Claim C6: `makeDir` creates the directory and all missing intermediate
directories and succeeds silently when the directory already exists — in
particular, calling it twice on the same path never fails the second time;
any failure of the underlying `ensureDir` is wrapped into a generic error
carrying the original message, or the message "Unknown Error" when the
thrown value is not a recognizable `Error` instance. -/
theorem makeDir_contract (input : DirectoryInput) (fs : FS) :
    (fs.deniedAt (splitPath (input.projectRoot ++ input.path)) = false →
     (∀ q ∈ segPrefixes (splitPath (input.projectRoot ++ input.path)),
        isFileEntry (fs.lookup q) = false) →
     ∃ fs', makeDir input fs = (.ok (), fs')
        ∧ (∀ q ∈ segPrefixes (splitPath (input.projectRoot ++ input.path)),
             fs'.lookup q = some Entry.dir)
        ∧ makeDir input fs' = (.ok (), fs'))
  ∧ (∀ e fs₁,
      ensureDir fs (input.projectRoot ++ input.path) = (.error e, fs₁) →
      makeDir input fs = (.error (makeDirCatch e), fs₁))
  ∧ (∀ je, makeDirCatch (.err je) = .err ⟨"Error", je.message⟩)
  ∧ (∀ v, makeDirCatch (.nonError v) = .err ⟨"Error", "Unknown Error"⟩) := by
  refine ⟨?_, ?_, fun je => rfl, fun v => rfl⟩
  · intro hd hf
    have hok := ensureDir_eq_ok fs (input.projectRoot ++ input.path) hd hf
    refine ⟨(segPrefixes (splitPath (input.projectRoot ++ input.path))).foldl
      ensureDirStep fs, ?_, ?_, ?_⟩
    · unfold makeDir
      rw [hok]
    · exact ensureDir_ok_dirs fs _ _ hok
    · unfold makeDir
      rw [ensureDir_idem fs _ _ hok]
  · intro e fs₁ h
    unfold makeDir
    rw [h]

theorem makeDir_contract_witness :
    (∃ fs', makeDir ⟨"/r", "/a/b"⟩ ⟨[], []⟩ = (.ok (), fs')
        ∧ (∀ q ∈ segPrefixes (splitPath ("/r" ++ "/a/b")),
             fs'.lookup q = some Entry.dir)
        ∧ makeDir ⟨"/r", "/a/b"⟩ fs' = (.ok (), fs')) ∧
    makeDir ⟨"/r", "/a"⟩ ⟨[(["r"], .file "x")], []⟩ =
      (.error (makeDirCatch ensureDirFileError),
        (⟨[(["r"], .file "x")], []⟩ : FS)) :=
  ⟨(makeDir_contract ⟨"/r", "/a/b"⟩ ⟨[], []⟩).1 rfl (by decide),
   (makeDir_contract ⟨"/r", "/a"⟩ ⟨[(["r"], .file "x")], []⟩).2.1
     ensureDirFileError _ rfl⟩

/-- Claim C7: `getDirectories` returns exactly the names of the entries of
the directory stream of `projectRoot ++ path` whose type is directory,
excluding files and other entry types, in the order the underlying stream
yields them. -/
theorem getDirectories_only_directories (input : DirectoryInput) (fs : FS)
    (l : List DirEntry)
    (h : Deno.readDir fs (input.projectRoot ++ input.path) = .ok l) :
    getDirectories input fs =
      .ok ((l.filter (fun d => d.isDirectory)).map (fun d => d.name)) := by
  unfold getDirectories
  rw [h]
  simp [foldl_push_dirs]

theorem getDirectories_only_directories_witness :
    getDirectories ⟨"/r", ""⟩
      ⟨[(["r"], .dir), (["r", "d1"], .dir), (["r", "f1"], .file "x"),
        (["r", "d2"], .dir)], []⟩ = .ok ["d1", "d2"] :=
  getDirectories_only_directories ⟨"/r", ""⟩
    ⟨[(["r"], .dir), (["r", "d1"], .dir), (["r", "f1"], .file "x"),
      (["r", "d2"], .dir)], []⟩
    [⟨"d1", false, true⟩, ⟨"f1", true, false⟩, ⟨"d2", false, true⟩] rfl

/-- Claim C8: every operation addresses the filesystem at the direct string
concatenation of `projectRoot` with the relative path/source/target, with no
separator normalization — except that `zipFolder` applies the single
trailing-slash fixup to its target directory before the archive filename is
resolved against it; no other argument (content, archive name, command) is
altered. -/
theorem operations_concatenate_paths (r p s t n c : String) (fs fs₁ : FS)
    (im : String → Except Thrown ImportedModule)
    (runCmd : CommandSpec → CommandResult)
    (resolvePath : String → String → String) :
    getFile ⟨r, p⟩ fs = Deno.readFile fs (r ++ p)
  ∧ getTextContent ⟨r, p⟩ fs = Deno.readTextFile fs (r ++ p)
  ∧ removeFile ⟨r, p⟩ fs = Deno.remove fs (r ++ p) false
  ∧ copyFile ⟨r, s, t⟩ fs = Deno.copyFile fs (r ++ s) (r ++ t)
  ∧ copyDir ⟨r, s, t⟩ fs = stdCopy fs (r ++ s) (r ++ t)
  ∧ getJsFile im ⟨r, p⟩ = im (r ++ p)
  ∧ (∀ l, Deno.readDir fs (r ++ p) = .ok l →
      getDirectories ⟨r, p⟩ fs = .ok (l.foldl (fun dirs entry =>
        if entry.isDirectory then dirs ++ [entry.name] else dirs) []))
  ∧ (ensureDir fs (r ++ p) = (.ok (), fs₁) →
      makeDir ⟨r, p⟩ fs = (.ok (), fs₁))
  ∧ (Deno.remove fs (r ++ p) true = (.ok (), fs₁) →
      removeDir ⟨r, p⟩ fs = (.ok (), fs₁))
  ∧ (c ≠ "" → writeFile ⟨r, p, some c⟩ fs = Deno.writeTextFile fs (r ++ p) c)
  ∧ zipArchivePath resolvePath ⟨r, s, t, n⟩ =
      resolvePath (r ++ formatWithTrailingSlash t) (n ++ ".zip")
  ∧ (ensureDir fs (r ++ formatWithTrailingSlash t) = (.ok (), fs₁) →
      (runCmd ⟨"zip", ["-r", zipArchivePath resolvePath ⟨r, s, t, n⟩, "."],
          r ++ s⟩).success = true →
      zipFolder runCmd resolvePath ⟨r, s, t, n⟩ fs =
        (.ok (), fs₁,
          [(runCmd ⟨"zip", ["-r", zipArchivePath resolvePath ⟨r, s, t, n⟩, "."],
              r ++ s⟩).stdout])) := by
  refine ⟨rfl, rfl, rfl, rfl, rfl, rfl, ?_, ?_, ?_, ?_, rfl, ?_⟩
  · intro l h
    unfold getDirectories
    rw [h]
  · intro h
    unfold makeDir
    rw [h]
  · intro h
    unfold removeDir
    rw [h]
  · intro hc
    simp [writeFile, hc]
  · intro h hsucc
    simp only [zipFolder]
    rw [h]
    simp [hsucc]

theorem operations_concatenate_paths_witness :
    makeDir ⟨"/r", "/x"⟩ ⟨[], []⟩ =
      (.ok (), (⟨[(["r", "x"], .dir), (["r"], .dir)], []⟩ : FS)) ∧
    removeDir ⟨"/r", "/x"⟩ ⟨[(["r", "x"], .dir)], []⟩ =
      (.ok (), (⟨[], []⟩ : FS)) ∧
    writeFile ⟨"/r", "/x", some "hi"⟩ ⟨[], []⟩ =
      Deno.writeTextFile ⟨[], []⟩ ("/r" ++ "/x") "hi" ∧
    zipFolder (fun _ => ⟨true, "out", ""⟩) (fun a b => a ++ b)
      ⟨"/r", "/s", "/t", "z"⟩ ⟨[], []⟩ =
      (.ok (), (⟨[(["r", "t"], .dir), (["r"], .dir)], []⟩ : FS), ["out"]) :=
  ⟨(operations_concatenate_paths "/r" "/x" "/s" "/t" "z" "hi" ⟨[], []⟩
      ⟨[(["r", "x"], .dir), (["r"], .dir)], []⟩ (fun _ => .ok [])
      (fun _ => ⟨true, "out", ""⟩) (fun a b => a ++ b)).2.2.2.2.2.2.2.1 rfl,
   (operations_concatenate_paths "/r" "/x" "/s" "/t" "z" "hi"
      ⟨[(["r", "x"], .dir)], []⟩ ⟨[], []⟩ (fun _ => .ok [])
      (fun _ => ⟨true, "out", ""⟩) (fun a b => a ++ b)).2.2.2.2.2.2.2.2.1 rfl,
   (operations_concatenate_paths "/r" "/x" "/s" "/t" "z" "hi" ⟨[], []⟩ ⟨[], []⟩
      (fun _ => .ok []) (fun _ => ⟨true, "out", ""⟩)
      (fun a b => a ++ b)).2.2.2.2.2.2.2.2.2.1 (by decide),
   (operations_concatenate_paths "/r" "/s" "/s" "/t" "z" "hi" ⟨[], []⟩
      ⟨[(["r", "t"], .dir), (["r"], .dir)], []⟩ (fun _ => .ok [])
      (fun _ => ⟨true, "out", ""⟩)
      (fun a b => a ++ b)).2.2.2.2.2.2.2.2.2.2.2 rfl rfl⟩

/-- Claim C9 counterexample: for the target `"a//"`, which already ends in
two separators, `formatWithTrailingSlash` returns it unchanged, so the
normalized result does not end in exactly one trailing `'/'` as claimed. -/
theorem formatWithTrailingSlash_two_slashes :
    formatWithTrailingSlash "a//" = "a//" ∧
    endsInExactlyOneSlash (formatWithTrailingSlash "a//") = false := by
  decide

/-- Claim C9 (amended): if the target does not end in `'/'`, exactly one
`'/'` is appended; a target already ending in `'/'` is returned unchanged
(so existing repeated separators are kept); hence the normalized result
always ends in at least one `'/'`. -/
theorem formatWithTrailingSlash_amended (x : String) :
    (x.data.getLast? ≠ some '/' → formatWithTrailingSlash x = x ++ "/")
  ∧ (x.data.getLast? = some '/' → formatWithTrailingSlash x = x)
  ∧ (formatWithTrailingSlash x).data.getLast? = some '/' :=
  ⟨fmtSlash_of_not_slash x, fmtSlash_of_slash x, fmtSlash_getLast x⟩

theorem formatWithTrailingSlash_amended_witness :
    formatWithTrailingSlash "a" = "a" ++ "/" ∧
    formatWithTrailingSlash "a/" = "a/" :=
  ⟨(formatWithTrailingSlash_amended "a").1 (by decide),
   (formatWithTrailingSlash_amended "a/").2.1 (by decide)⟩

/-- Claim C10: the trailing-slash helper is idempotent and maps the empty
string to `"/"`; consequently `zipFolder` computes the same archive path —
indeed behaves identically — for a target carrying a single trailing slash
as for the same target without one. -/
theorem formatWithTrailingSlash_idempotent (x t : String)
    (resolvePath : String → String → String) (r s n : String) :
    formatWithTrailingSlash (formatWithTrailingSlash x) = formatWithTrailingSlash x
  ∧ formatWithTrailingSlash "" = "/"
  ∧ (t.data.getLast? ≠ some '/' →
      zipArchivePath resolvePath ⟨r, s, t ++ "/", n⟩ =
        zipArchivePath resolvePath ⟨r, s, t, n⟩)
  ∧ (t.data.getLast? ≠ some '/' → ∀ runCmd fs,
      zipFolder runCmd resolvePath ⟨r, s, t ++ "/", n⟩ fs =
        zipFolder runCmd resolvePath ⟨r, s, t, n⟩ fs) := by
  have h1 : formatWithTrailingSlash (t ++ "/") = t ++ "/" := by
    apply fmtSlash_of_slash
    rw [String.data_append]
    have hsl : "/".data = ['/'] := rfl
    rw [hsl, List.getLast?_append_cons]
    rfl
  refine ⟨fmtSlash_idem x, by decide, ?_, ?_⟩
  · intro ht
    unfold zipArchivePath
    simp only
    rw [h1, fmtSlash_of_not_slash t ht]
  · intro ht runCmd fs
    simp only [zipFolder, zipArchivePath]
    rw [h1, fmtSlash_of_not_slash t ht]

theorem formatWithTrailingSlash_idempotent_witness :
    zipArchivePath (fun a b => a ++ b) ⟨"/r", "/s", "/t" ++ "/", "z"⟩ =
      zipArchivePath (fun a b => a ++ b) ⟨"/r", "/s", "/t", "z"⟩ ∧
    zipFolder (fun _ => ⟨true, "out", ""⟩) (fun a b => a ++ b)
        ⟨"/r", "/s", "/t" ++ "/", "z"⟩ ⟨[], []⟩ =
      zipFolder (fun _ => ⟨true, "out", ""⟩) (fun a b => a ++ b)
        ⟨"/r", "/s", "/t", "z"⟩ ⟨[], []⟩ :=
  ⟨(formatWithTrailingSlash_idempotent "" "/t" (fun a b => a ++ b)
      "/r" "/s" "z").2.2.1 (by decide),
   (formatWithTrailingSlash_idempotent "" "/t" (fun a b => a ++ b)
      "/r" "/s" "z").2.2.2 (by decide) (fun _ => ⟨true, "out", ""⟩) ⟨[], []⟩⟩
